import Mathlib

/-!
Verification of the redact-pdf scope-aware token-stream redaction engine
(`src/redact-pdf.cc`) against its natural-language specification.

The shallow embedding below translates the C++ source:
* `scope_t`, `SCOPE_FLAGS`, `nestable` — the scope enumeration and helpers;
* `TFilter` — the token-filter state machine (`_add`, `_flush`, `_start`,
  `_end`, `handleToken`, `handleEOF`, `data`, `redact`);
* `streamAct` / `pageKept` — the per-stream decision logic of `redactPage`;
* `redactPageF` — the recursive descent of `redactPage` into form XObjects,
  with explicit fuel (the C++ recursion has no depth guard);
* `parseArgs` — command-line parsing;
* `applyStep` / `inPlaceTrace` — the file-system effects of the in-place
  replacement tail of `main`.

External collaborators (the qpdf tokenizer, the ECMAScript regex engine) are
abstracted: tokens are records of kind/raw bytes/logical value, the matcher is
an opaque `search : String → Bool` plus a remove-all-matches
`repl : String → String`.  For concrete scenarios the literal pattern
`secret` is instantiated by substring search and removal.
-/

/-- Token kinds relevant to the filter: the C++ switch distinguishes
`tt_word`, `tt_space`, `tt_string`, and lumps everything else into a
default case. -/
inductive TokType where
  | word
  | space
  | str
  | other
deriving DecidableEq, Repr

/-- A lexical token: kind tag, raw serialized bytes, extracted logical
value (`getRawValue` / `getValue` in qpdf). -/
structure Tok where
  tp : TokType
  raw : String
  val : String
deriving DecidableEq, Repr

/-- `scope_t` — the scope at which redaction takes place, ordered from
narrowest to widest exactly as in the source enum. -/
inductive scope_t where
  | s_match
  | s_operator
  | s_text_object
  | s_graphics_state
  | s_stream
  | s_page
deriving DecidableEq, Repr

/-- Numeric value of a `scope_t`, matching the C++ enum values. -/
def scope_t.idx : scope_t → Nat
  | .s_match => 0
  | .s_operator => 1
  | .s_text_object => 2
  | .s_graphics_state => 3
  | .s_stream => 4
  | .s_page => 5

/-- `SCOPE_FLAGS` — argument flags used to set scope; index matches enum. -/
def SCOPE_FLAGS : String := "motqsp"

/-- Which scopes contain start/end operators, and so can be nested. -/
def nestable (scope : scope_t) : Bool :=
  scope = .s_text_object || scope = .s_graphics_state

/-- Modelled from the spec: the external tokenizer re-serializes a string
value when a token is constructed from it (`QPDFTokenizer::Token(tt_string,
v)`); for printable text the value is wrapped in parentheses with backslash
escapes for backslashes, parentheses and common control characters. -/
def escChar (c : Char) : String :=
  if c = '\\' ∨ c = '(' ∨ c = ')' then String.mk ['\\', c]
  else if c = '\n' then "\\n"
  else if c = '\r' then "\\r"
  else if c = '\t' then "\\t"
  else String.singleton c

/-- Modelled from the spec: serialization of a string token value. -/
def serializeString (s : String) : String :=
  "(" ++ String.join (s.toList.map escChar) ++ ")"

/-- State of the C++ `Filter` token filter (named `TFilter` here: `Filter` is taken by the ambient library): the redact verdict flag, the
trailing-whitespace-suppression flag, and the frame stack.  Each frame is a
pair of the unwritten raw data and the collected probe text
(`vector<pair<string, string>>` in the source).  The head of the list is
the top of the stack (`_stack.back()`); the last element is `_stack[0]`,
the root frame. -/
structure TFilter where
  _redact : Bool
  _trim : Bool
  _stack : List (String × String)
deriving DecidableEq, Repr

/-- The constructor `Filter(regex, scope)` pushes one empty frame. -/
def TFilter.init : TFilter := ⟨false, false, [("", "")]⟩

/-- `Filter::_add` — add a token to the currently active frame: append its
raw bytes, append its value to the probe text if it is a string token, and
clear the trim flag. -/
def TFilter.add (t : Tok) (st : TFilter) : TFilter :=
  match st._stack with
  | [] => st
  | frame :: rest =>
    { st with
      _stack := (frame.1 ++ t.raw,
                 if t.tp = .str then frame.2 ++ t.val else frame.2) :: rest,
      _trim := false }

/-- `Filter::_flush` — pop the top frame; if its probe text does not match,
merge its data into the new top frame; otherwise discard it, set the
overall redact flag and flag the next whitespace for trimming.  The
callers guarantee the stack has more than one frame, so the inner `[]`
case is never reached. -/
def TFilter.flush (search : String → Bool) (st : TFilter) : TFilter :=
  match st._stack with
  | [] => st
  | frame :: rest =>
    if search frame.2 = false then
      match rest with
      | [] => { st with _stack := [] }
      | top :: rest2 =>
        { st with _stack := (top.1 ++ frame.1, top.2 ++ frame.2) :: rest2 }
    else
      { st with _stack := rest, _redact := true, _trim := true }

/-- `Filter::_start` — push a new frame if the desired scope matches the
expected scope and there is no frame yet or the scope is nestable, then
add the token. -/
def TFilter.start (target scope : scope_t) (t : Tok) (st : TFilter) : TFilter :=
  let st' :=
    if target = scope ∧ (nestable scope ∨ st._stack.length = 1) then
      { st with _stack := ("", "") :: st._stack }
    else st
  TFilter.add t st'

/-- `Filter::_end` — add the token, then flush the current frame if the
desired scope matches the expected scope and a frame is open. -/
def TFilter.endTok (target : scope_t) (search : String → Bool)
    (scope : scope_t) (t : Tok) (st : TFilter) : TFilter :=
  let st' := TFilter.add t st
  if target = scope ∧ st'._stack.length > 1 then TFilter.flush search st' else st'

/-- `Filter::handleToken` — dispatch on the token kind and value exactly as
the C++ switch does.  `search`/`repl` stand for `regex_search` and
`regex_replace (…, "")`. -/
def TFilter.handleToken (target : scope_t) (search : String → Bool)
    (repl : String → String) (t : Tok) (st : TFilter) : TFilter :=
  match t.tp with
  | .word =>
    if t.val = "BT" then TFilter.start target .s_text_object t st
    else if t.val = "ET" then TFilter.endTok target search .s_text_object t st
    else if t.val = "q" then TFilter.start target .s_graphics_state t st
    else if t.val = "Q" then TFilter.endTok target search .s_graphics_state t st
    else TFilter.endTok target search .s_operator t st
  | .space =>
    let st' := if st._trim = false then TFilter.add t st else st
    { st' with _trim := false }
  | .str =>
    if target = .s_match then
      TFilter.add ⟨.str, serializeString (repl t.val), repl t.val⟩ st
    else TFilter.start target .s_operator t st
  | .other => TFilter.start target .s_operator t st

/-- One pass of the `while (_stack.size() > 1) _flush();` loop of
`handleEOF`, with explicit fuel.  Each flush of a stack of length ≥ 2
shortens it by exactly one, so fuel equal to the stack length is enough
for the loop to reach its fixed point. -/
def TFilter.flushN (search : String → Bool) : Nat → TFilter → TFilter
  | 0, st => st
  | n + 1, st =>
    if st._stack.length > 1 then TFilter.flushN search n (TFilter.flush search st)
    else st

/-- `Filter::handleEOF` — flush any remaining open frames. -/
def TFilter.handleEOF (search : String → Bool) (st : TFilter) : TFilter :=
  TFilter.flushN search st._stack.length st

/-- `Filter::data` — final raw stream data, `_stack[0].first`. -/
def TFilter.data (st : TFilter) : String :=
  (st._stack.getLast?.getD ("", "")).1

/-- `Filter::redact` — test final text for redaction:
`_redact || regex_search(_stack[0].second, _regex)`. -/
def TFilter.redact (search : String → Bool) (st : TFilter) : Bool :=
  st._redact || search (st._stack.getLast?.getD ("", "")).2

/-- Feed a token list to the filter in stream order
(`obj.filterAsContents(&filter)` delivers each token to `handleToken`). -/
def TFilter.runTokens (target : scope_t) (search : String → Bool)
    (repl : String → String) (toks : List Tok) (st : TFilter) : TFilter :=
  toks.foldl (fun s t => TFilter.handleToken target search repl t s) st

/-- A full filter pass over one content stream: construct, feed every
token, then `handleEOF`. -/
def TFilter.runFilter (target : scope_t) (search : String → Bool)
    (repl : String → String) (toks : List Tok) : TFilter :=
  TFilter.handleEOF search (TFilter.runTokens target search repl toks TFilter.init)

/-- Raw bytes of a token sequence (the content stream's original bytes:
the external tokenizer is lossless, so they concatenate back). -/
def rawConcat : List Tok → String
  | [] => ""
  | t :: ts => t.raw ++ rawConcat ts

/-- Concatenated logical text of the string tokens of a sequence — the
"accumulated text" of a stream. -/
def valConcat : List Tok → String
  | [] => ""
  | t :: ts => (if t.tp = .str then t.val else "") ++ valConcat ts

/-- Concatenation of the probe texts of a frame stack, bottom (root) to
top. -/
def joinProbes : List (String × String) → String
  | [] => ""
  | f :: rest => joinProbes rest ++ f.2

/-- Literal substring search: the model of `regex_search` for the literal
pattern `secret`. -/
def searchSecret (s : String) : Bool :=
  decide ("secret".data <:+: s.data)

/-- Remove all non-overlapping occurrences of `pat`, left to right, with
fuel; the model of `regex_replace (…, "")` for a literal pattern. -/
def removeAllF (pat : List Char) : Nat → List Char → List Char
  | 0, s => s
  | _ + 1, [] => []
  | n + 1, c :: cs =>
    if pat ≠ [] ∧ pat <+: (c :: cs) then removeAllF pat n ((c :: cs).drop pat.length)
    else c :: removeAllF pat n cs

/-- Remove all non-overlapping occurrences of `pat` in `s`. -/
def removeAll (pat s : List Char) : List Char :=
  removeAllF pat s.length s

/-- The model of `regex_replace (value, regex, "")` for the literal
pattern `secret`. -/
def replSecret (s : String) : String :=
  String.mk (removeAll "secret".data s.data)

/-- The decision `redactPage` takes for one content stream after running
the filter over it (`src/redact-pdf.cc`, lines 224-244): on a positive
verdict, bail out for `s_page`, omit the stream for `s_stream`, and
replace the stream data with the filter output otherwise; on a negative
verdict the stream is kept untouched. -/
inductive StreamAct where
  | dropPage
  | omitStream
  | replaceData (d : String)
  | keepOrig
deriving DecidableEq, Repr

/-- The per-stream branch of `redactPage`. -/
def streamAct (target : scope_t) (search : String → Bool)
    (repl : String → String) (toks : List Tok) : StreamAct :=
  let st := TFilter.runFilter target search repl toks
  if TFilter.redact search st then
    match target with
    | .s_page => .dropPage
    | .s_stream => .omitStream
    | _ => .replaceData (TFilter.data st)
  else .keepOrig

/-- The raw bytes a content stream holds in the output document:
`none` when the stream is dropped with its page or omitted, `some` of the
replacement data or of the untouched original bytes otherwise. -/
def streamBytesAfter (target : scope_t) (search : String → Bool)
    (repl : String → String) (toks : List Tok) : Option String :=
  match streamAct target search repl toks with
  | .dropPage => none
  | .omitStream => none
  | .replaceData d => some d
  | .keepOrig => some (rawConcat toks)

/-- The content-stream loop of `redactPage` over a page's streams:
`none` means the page is dropped (`return true`), `some l` the list of
surviving streams' bytes. -/
def pageKept (target : scope_t) (search : String → Bool)
    (repl : String → String) : List (List Tok) → Option (List String)
  | [] => some []
  | s :: rest =>
    match streamAct target search repl s with
    | .dropPage => none
    | .omitStream => pageKept target search repl rest
    | .replaceData d => (pageKept target search repl rest).map (d :: ·)
    | .keepOrig => (pageKept target search repl rest).map (rawConcat s :: ·)

/-- Bytes of a page's content that survive redaction (a dropped page
keeps nothing). -/
def pageContent (target : scope_t) (search : String → Bool)
    (repl : String → String) (streams : List (List Tok)) : List String :=
  (pageKept target search repl streams).getD []

/-- Instrumented copy of the filter state used to settle the verdict
claim: in addition to the `TFilter` fields it counts every discarded
frame, and separately those discards whose parent was the root frame
(the spec's "no parent frame to merge into"). -/
structure RState where
  _redact : Bool
  _trim : Bool
  _stack : List (String × String)
  discards : Nat
  rootDiscards : Nat
deriving DecidableEq, Repr

/-- Instrumented initial state. -/
def RState.init : RState := ⟨false, false, [("", "")], 0, 0⟩

/-- Instrumented `_add`: identical to `TFilter.add` on the shared fields. -/
def RState.add (t : Tok) (st : RState) : RState :=
  match st._stack with
  | [] => st
  | frame :: rest =>
    { st with
      _stack := (frame.1 ++ t.raw,
                 if t.tp = .str then frame.2 ++ t.val else frame.2) :: rest,
      _trim := false }

/-- Instrumented `_flush`: identical to `TFilter.flush` on the shared
fields, and additionally counts discards. -/
def RState.flush (search : String → Bool) (st : RState) : RState :=
  match st._stack with
  | [] => st
  | frame :: rest =>
    if search frame.2 = false then
      match rest with
      | [] => { st with _stack := [] }
      | top :: rest2 =>
        { st with _stack := (top.1 ++ frame.1, top.2 ++ frame.2) :: rest2 }
    else
      { st with _stack := rest, _redact := true, _trim := true,
                discards := st.discards + 1,
                rootDiscards :=
                  st.rootDiscards + (if rest.length = 1 then 1 else 0) }

/-- Instrumented `_start`. -/
def RState.start (target scope : scope_t) (t : Tok) (st : RState) : RState :=
  let st' :=
    if target = scope ∧ (nestable scope ∨ st._stack.length = 1) then
      { st with _stack := ("", "") :: st._stack }
    else st
  RState.add t st'

/-- Instrumented `_end`. -/
def RState.endTok (target : scope_t) (search : String → Bool)
    (scope : scope_t) (t : Tok) (st : RState) : RState :=
  let st' := RState.add t st
  if target = scope ∧ st'._stack.length > 1 then RState.flush search st' else st'

/-- Instrumented `handleToken`. -/
def RState.handleToken (target : scope_t) (search : String → Bool)
    (repl : String → String) (t : Tok) (st : RState) : RState :=
  match t.tp with
  | .word =>
    if t.val = "BT" then RState.start target .s_text_object t st
    else if t.val = "ET" then RState.endTok target search .s_text_object t st
    else if t.val = "q" then RState.start target .s_graphics_state t st
    else if t.val = "Q" then RState.endTok target search .s_graphics_state t st
    else RState.endTok target search .s_operator t st
  | .space =>
    let st' := if st._trim = false then RState.add t st else st
    { st' with _trim := false }
  | .str =>
    if target = .s_match then
      RState.add ⟨.str, serializeString (repl t.val), repl t.val⟩ st
    else RState.start target .s_operator t st
  | .other => RState.start target .s_operator t st

/-- Instrumented `handleEOF` loop. -/
def RState.flushN (search : String → Bool) : Nat → RState → RState
  | 0, st => st
  | n + 1, st =>
    if st._stack.length > 1 then RState.flushN search n (RState.flush search st)
    else st

/-- Instrumented full run over a stream's tokens. -/
def RState.runFilter (target : scope_t) (search : String → Bool)
    (repl : String → String) (toks : List Tok) : RState :=
  let st := toks.foldl (fun s t => RState.handleToken target search repl t s)
    RState.init
  RState.flushN search st._stack.length st

/-- Modelled from the spec: the overall verdict as §4.1 describes it —
positive exactly when the root frame's accumulated probe text matches, or
a frame was discarded that had no parent frame (other than the implicit
root) to merge into. -/
def specRedact (target : scope_t) (search : String → Bool)
    (repl : String → String) (toks : List Tok) : Bool :=
  let r := RState.runFilter target search repl toks
  (r.rootDiscards > 0) || search ((r._stack.getLast?.getD ("", "")).2)

/-- A content-bearing unit for the recursive walk of `redactPage`: its
content streams (as token sequences) and the identities of the form
XObjects it references.  References are resolved through an environment,
mirroring the reference-based source format. -/
structure PageObj where
  streams : List (List Tok)
  forms : List Nat
deriving Repr

/-- The `for (auto &entry : page.getFormXObjects()) { ... if (...) return
true; }` loop of `redactPage`: walk the referenced forms in order with the
given recursive call, propagating a `true` result (drop the page)
immediately and a fuel exhaustion (`none`) as well. -/
def formsFold (walk : Nat → Option Bool) : List Nat → Option Bool
  | [] => some false
  | f :: fs =>
    match walk f with
    | none => none
    | some true => some true
    | some false => formsFold walk fs

/-- The recursion of `redactPage` (`src/redact-pdf.cc`, lines 220-256)
restricted to its control flow: for page scope, bail out with `true` as
soon as one of the unit's own streams has a positive verdict; then walk
every referenced form object, propagating a `true` result immediately.
The C++ recursion carries no cycle guard, so the embedding uses explicit
fuel: `none` means the fuel ran out before the recursion returned. -/
def redactPageF (target : scope_t) (search : String → Bool)
    (repl : String → String) (env : Nat → PageObj) :
    Nat → PageObj → Option Bool
  | 0, _ => none
  | n + 1, o =>
    if target = .s_page ∧ o.streams.any (fun s =>
        TFilter.redact search (TFilter.runFilter target search repl s)) then
      some true
    else
      formsFold (fun f => redactPageF target search repl env n (env f)) o.forms

/-- An object environment with no form references at all. -/
def oneEnv : Nat → PageObj := fun _ => PageObj.mk [] []

/-- File-system cells touched by the in-place tail of `main`: the input
path and the sibling temporary path `infile + "~"`. -/
structure FsState where
  inFile : Option String
  tmpFile : Option String
deriving DecidableEq, Repr

/-- The effectful steps of the in-place tail of `main`
(`src/redact-pdf.cc`, lines 280-289): write the whole result to the
temporary path, `QUtil::remove_file(infile)`, then
`QUtil::rename_file(outfile, infile)`. -/
inductive FsStep where
  | writeTmp (content : String)
  | removeIn
  | renameTmpIn
deriving DecidableEq, Repr

/-- Effect of one step on the two cells. -/
def applyStep (fs : FsState) : FsStep → FsState
  | .writeTmp c => { fs with tmpFile := some c }
  | .removeIn => { fs with inFile := none }
  | .renameTmpIn => { inFile := fs.tmpFile, tmpFile := none }

/-- The step sequence executed by a successful in-place run that produces
`result`.  A run that fails with an exception executes a prefix of this
sequence and nothing more (the `catch` only prints and exits). -/
def inPlaceTrace (result : String) : List FsStep :=
  [.writeTmp result, .removeIn, .renameTmpIn]

/-- The file system reached when the run stops (successfully or by an
exception) after the first `k` steps. -/
def fsAfter (original result : String) (k : Nat) : FsState :=
  ((inPlaceTrace result).take k).foldl applyStep ⟨some original, none⟩

/-- Parsed command-line arguments (`args_t`): the `const char *` members
start as null pointers under `args_t args{}`, modelled as `none`; the
scope member starts as the zero enum value `s_match`. -/
structure Args where
  regex : Option String
  infile : Option String
  outfile : Option String
  scope : scope_t
deriving DecidableEq, Repr

/-- The scope selected by a flag character: `SCOPE_FLAGS.find` followed by
the cast to `scope_t`; `none` models `npos`, which makes `parseArgs` print
usage and exit. -/
def scopeOfChar (c : Char) : Option scope_t :=
  (SCOPE_FLAGS.toList.indexOf? c).map (fun i =>
    [scope_t.s_match, .s_operator, .s_text_object, .s_graphics_state,
     .s_stream, .s_page].getD i .s_match)

/-- `parseArgs` (`src/redact-pdf.cc`, lines 55-76): every argument whose
first byte is `-` re-assigns the scope from its second character (usage
error when the character is not a scope flag, including the terminating
NUL of a bare `-`); other arguments fill `regex`, `infile`, `outfile` in
order, a fourth being a usage error; finally `regex` and `infile` must
both be present.  `none` models `usage()`/exit 2. -/
def parseStep (acc : Option Args) (a : String) : Option Args :=
  acc.bind (fun s =>
    match a.toList with
    | '-' :: rest =>
      match rest.head? with
      | none => none
      | some c => (scopeOfChar c).map (fun sc => { s with scope := sc })
    | _ =>
      if s.regex = none then some { s with regex := some a }
      else if s.infile = none then some { s with infile := some a }
      else if s.outfile = none then some { s with outfile := some a }
      else none)

def parseArgs (argv : List String) : Option Args :=
  (argv.foldl parseStep (some ⟨none, none, none, .s_match⟩)).bind (fun s =>
    if s.regex = none ∨ s.infile = none then none else some s)

/-! ### Concrete scenario inputs -/

/-- Scenario A of the spec: the token sequence of the content stream
`(hello secret world) Tj`. -/
def scenarioA : List Tok :=
  [⟨.str, "(hello secret world)", "hello secret world"⟩,
   ⟨.space, " ", " "⟩, ⟨.word, "Tj", "Tj"⟩]

/-- A stream with a matching inner graphics-state block nested inside a
clean outer one: `q q (secret) Q (x) Q`. -/
def c2toks : List Tok :=
  [⟨.word, "q", "q"⟩, ⟨.space, " ", " "⟩, ⟨.word, "q", "q"⟩, ⟨.space, " ", " "⟩,
   ⟨.str, "(secret)", "secret"⟩, ⟨.space, " ", " "⟩, ⟨.word, "Q", "Q"⟩,
   ⟨.space, " ", " "⟩, ⟨.str, "(x)", "x"⟩, ⟨.space, " ", " "⟩, ⟨.word, "Q", "Q"⟩]

/-- A one-stream page whose only text matches but sits in no `BT`/`ET`
block: `(x secret) Tj`. -/
def c3doc : List (List Tok) :=
  [[⟨.str, "(x secret)", "x secret"⟩, ⟨.space, " ", " "⟩, ⟨.word, "Tj", "Tj"⟩]]

/-- An object environment with a self-referencing form XObject. -/
def cycEnv : Nat → PageObj := fun _ => ⟨[], [0]⟩

/-- A concrete non-matching stream: the tokens of `(hi) Tj`. -/
def c4tok : List Tok :=
  [⟨.str, "(hi)", "hi"⟩, ⟨.space, " ", " "⟩, ⟨.word, "Tj", "Tj"⟩]

/-- Projection of the instrumented state onto the filter state. -/
def eraseR (r : RState) : TFilter := ⟨r._redact, r._trim, r._stack⟩

/-- Concatenation of a list of byte strings (the bytes a page's surviving
content streams hold, in order). -/
def catStrings : List String → String
  | [] => ""
  | s :: rest => s ++ catStrings rest

/-- The probe increment one token contributes to the active frame's probe
text under `handleToken`. -/
def probeInc (target : scope_t) (repl : String → String) (t : Tok) : String :=
  if t.tp = .str then (if target = .s_match then repl t.val else t.val) else ""

/-! ### Basic stack lemmas -/

theorem add_stack_length (t : Tok) (st : TFilter) :
    (TFilter.add t st)._stack.length = st._stack.length := by
  cases hs : st._stack <;> simp [TFilter.add, hs]

theorem add_fields (t : Tok) (st : TFilter) :
    (TFilter.add t st)._redact = st._redact ∧
    (st._stack ≠ [] → (TFilter.add t st)._trim = false) := by
  cases hs : st._stack <;> simp [TFilter.add, hs]

theorem flush_length (search : String → Bool) (st : TFilter)
    (h : 1 < st._stack.length) :
    (TFilter.flush search st)._stack.length + 1 = st._stack.length := by
  match hs : st._stack with
  | [] => rw [hs] at h; simp at h
  | [f] => rw [hs] at h; simp at h
  | f :: g :: r =>
    simp only [TFilter.flush, hs]
    split <;> simp [hs]

theorem start_length (target scope : scope_t) (t : Tok) (st : TFilter) :
    (TFilter.start target scope t st)._stack.length = st._stack.length ∨
    (TFilter.start target scope t st)._stack.length = st._stack.length + 1 := by
  rw [TFilter.start]
  split <;> simp [add_stack_length]

theorem endTok_length (target : scope_t) (search : String → Bool)
    (scope : scope_t) (t : Tok) (st : TFilter) (h : st._stack ≠ []) :
    (TFilter.endTok target search scope t st)._stack ≠ [] := by
  rw [TFilter.endTok]
  have hl := add_stack_length t st
  have h0 : 0 < st._stack.length := List.length_pos.mpr h
  split
  · next hc =>
    have h1 : 1 < (TFilter.add t st)._stack.length := hc.2
    have := flush_length search (TFilter.add t st) h1
    have : 0 < (TFilter.flush search (TFilter.add t st))._stack.length := by omega
    exact List.length_pos.mp this
  · have : 0 < (TFilter.add t st)._stack.length := by omega
    exact List.length_pos.mp this

theorem handleToken_ne (target : scope_t) (search : String → Bool)
    (repl : String → String) (t : Tok) (st : TFilter) (h : st._stack ≠ []) :
    (TFilter.handleToken target search repl t st)._stack ≠ [] := by
  have h0 : 0 < st._stack.length := List.length_pos.mpr h
  have hadd : ∀ u : Tok, (TFilter.add u st)._stack ≠ [] := fun u =>
    List.length_pos.mp (by rw [add_stack_length]; exact h0)
  have hstart : ∀ sc : scope_t, (TFilter.start target sc t st)._stack ≠ [] := by
    intro sc
    rw [TFilter.start]
    split
    · apply List.length_pos.mp
      rw [add_stack_length]
      simp
    · exact hadd t
  rw [TFilter.handleToken]
  match t with
  | ⟨.word, raw, val⟩ =>
    simp only
    split
    · exact hstart _
    · split
      · exact endTok_length _ _ _ _ _ h
      · split
        · exact hstart _
        · split
          · exact endTok_length _ _ _ _ _ h
          · exact endTok_length _ _ _ _ _ h
  | ⟨.space, raw, val⟩ =>
    simp only
    split
    · exact hadd _
    · exact h
  | ⟨.str, raw, val⟩ =>
    simp only
    split
    · exact hadd _
    · exact hstart _
  | ⟨.other, raw, val⟩ => exact hstart _

theorem runTokens_ne (target : scope_t) (search : String → Bool)
    (repl : String → String) (ts : List Tok) (st : TFilter)
    (h : st._stack ≠ []) :
    (TFilter.runTokens target search repl ts st)._stack ≠ [] := by
  induction ts generalizing st with
  | nil => exact h
  | cons t ts ih =>
    exact ih _ (handleToken_ne target search repl t st h)

theorem flushN_ne (search : String → Bool) (n : Nat) (st : TFilter)
    (h : st._stack ≠ []) : (TFilter.flushN search n st)._stack ≠ [] := by
  induction n generalizing st with
  | zero => exact h
  | succ n ih =>
    rw [TFilter.flushN]
    split
    · next hl =>
      apply ih
      have := flush_length search st hl
      exact List.length_pos.mp (by omega)
    · exact h

/-- Claim C8: for every target scope, matcher and token sequence, the
filter's frame stack always holds at least one frame — after any prefix of
`handleToken` calls, and after `handleEOF` — so the accesses to
`_stack.back()` and `_stack[0]` are in bounds. -/
theorem c8_stack_nonempty (target : scope_t) (search : String → Bool)
    (repl : String → String) (toks : List Tok) (k : Nat) :
    (TFilter.runTokens target search repl (toks.take k) TFilter.init)._stack ≠ [] ∧
    (TFilter.handleEOF search
      (TFilter.runTokens target search repl toks TFilter.init))._stack ≠ [] := by
  have hinit : (TFilter.init)._stack ≠ [] := by simp [TFilter.init]
  refine ⟨runTokens_ne _ _ _ _ _ hinit, ?_⟩
  rw [TFilter.handleEOF]
  exact flushN_ne _ _ _ (runTokens_ne _ _ _ _ _ hinit)

theorem runTokens_nil (target : scope_t) (search : String → Bool)
    (repl : String → String) (st : TFilter) :
    TFilter.runTokens target search repl [] st = st := rfl

theorem runTokens_cons (target : scope_t) (search : String → Bool)
    (repl : String → String) (t : Tok) (ts : List Tok) (st : TFilter) :
    TFilter.runTokens target search repl (t :: ts) st =
      TFilter.runTokens target search repl ts
        (TFilter.handleToken target search repl t st) := rfl

theorem handleToken_sp (target : scope_t)
    (h : target = .s_stream ∨ target = .s_page) (search : String → Bool)
    (repl : String → String) (t : Tok) (r v : String) (red : Bool) :
    TFilter.handleToken target search repl t ⟨red, false, [(r, v)]⟩ =
      ⟨red, false, [(r ++ t.raw, v ++ (if t.tp = .str then t.val else ""))]⟩ := by
  obtain ⟨tp, raw, val⟩ := t
  cases tp with
  | word =>
    rcases h with rfl | rfl <;>
      (simp only [TFilter.handleToken]
       split_ifs <;> try contradiction) <;>
      simp [TFilter.start, TFilter.endTok, TFilter.add, nestable]
  | space =>
    rcases h with rfl | rfl <;> simp [TFilter.handleToken, TFilter.add]
  | str =>
    rcases h with rfl | rfl <;>
      simp [TFilter.handleToken, TFilter.start, TFilter.add, nestable]
  | other =>
    rcases h with rfl | rfl <;>
      simp [TFilter.handleToken, TFilter.start, TFilter.add, nestable]

theorem runTokens_sp (target : scope_t)
    (h : target = .s_stream ∨ target = .s_page) (search : String → Bool)
    (repl : String → String) :
    ∀ (ts : List Tok) (r v : String) (red : Bool),
      TFilter.runTokens target search repl ts ⟨red, false, [(r, v)]⟩ =
        ⟨red, false, [(r ++ rawConcat ts, v ++ valConcat ts)]⟩ := by
  intro ts
  induction ts with
  | nil =>
    intro r v red
    simp [runTokens_nil, rawConcat, valConcat]
  | cons t ts ih =>
    intro r v red
    rw [runTokens_cons, handleToken_sp target h, ih]
    simp [rawConcat, valConcat, String.append_assoc]

/-- Claim C9: with target scope stream or page the engine never pushes a
frame beyond the root and never sets the trailing-whitespace-suppression
flag, its final output data is the concatenation of all input tokens' raw
bytes, and the verdict is just the matcher applied to the accumulated
string text. -/
theorem c9_stream_page_passthrough (target : scope_t) (search : String → Bool)
    (repl : String → String) (toks : List Tok) (k : Nat)
    (h : target = .s_stream ∨ target = .s_page) :
    (TFilter.runTokens target search repl (toks.take k) TFilter.init)._stack.length = 1 ∧
    (TFilter.runTokens target search repl (toks.take k) TFilter.init)._trim = false ∧
    TFilter.data (TFilter.runFilter target search repl toks) = rawConcat toks ∧
    TFilter.redact search (TFilter.runFilter target search repl toks) =
      search (valConcat toks) := by
  have hi : TFilter.init = (⟨false, false, [("", "")]⟩ : TFilter) := rfl
  have h1 := runTokens_sp target h search repl (toks.take k) "" "" false
  have h2 := runTokens_sp target h search repl toks "" "" false
  have hrun : TFilter.runFilter target search repl toks =
      (⟨false, false, [(rawConcat toks, valConcat toks)]⟩ : TFilter) := by
    rw [TFilter.runFilter, hi, h2]
    simp [TFilter.handleEOF, TFilter.flushN]
  refine ⟨?_, ?_, ?_, ?_⟩
  · rw [hi, h1]; rfl
  · rw [hi, h1]
  · rw [hrun]; simp [TFilter.data]
  · rw [hrun]; simp [TFilter.redact]

/-- Witness for C9 at a concrete stream-scoped run over Scenario A's
tokens. -/
theorem c9_witness :
    (TFilter.runTokens .s_stream searchSecret replSecret (scenarioA.take 1)
      TFilter.init)._stack.length = 1 ∧
    (TFilter.runTokens .s_stream searchSecret replSecret (scenarioA.take 1)
      TFilter.init)._trim = false ∧
    TFilter.data (TFilter.runFilter .s_stream searchSecret replSecret scenarioA) =
      rawConcat scenarioA ∧
    TFilter.redact searchSecret
      (TFilter.runFilter .s_stream searchSecret replSecret scenarioA) =
      searchSecret (valConcat scenarioA) :=
  c9_stream_page_passthrough .s_stream searchSecret replSecret scenarioA 1
    (Or.inl rfl)

/-- Claim C1 (documenting the divergence): on Scenario A with target
scope `s_match` and pattern `secret`, the engine does compute the
redacted stream `(hello  world) Tj` as its output data, but its verdict —
taken from the post-replacement probe text — is `false`, so `redactPage`
never installs the output and the stream's bytes in the output document
are the unchanged original `(hello secret world) Tj`. -/
theorem c1_match_scope_divergence :
    TFilter.data (TFilter.runFilter .s_match searchSecret replSecret scenarioA) =
      "(hello  world) Tj" ∧
    TFilter.redact searchSecret
      (TFilter.runFilter .s_match searchSecret replSecret scenarioA) = false ∧
    streamBytesAfter .s_match searchSecret replSecret scenarioA =
      some "(hello secret world) Tj" := by
  decide

theorem trim_update (x : TFilter) (h : x._trim = false) :
    { x with _trim := false } = x := by
  obtain ⟨a, b, c⟩ := x
  simp only at h
  rw [h]

theorem start_trim (target sc : scope_t) (t : Tok) (st : TFilter)
    (hne : st._stack ≠ []) : (TFilter.start target sc t st)._trim = false := by
  rw [TFilter.start]
  split
  · exact (add_fields t _).2 (by simp)
  · exact (add_fields t st).2 hne

theorem endTok_discard (target : scope_t) (search : String → Bool)
    (sc : scope_t) (t : Tok) (st : TFilter) (hne : st._stack ≠ [])
    (ht : (TFilter.endTok target search sc t st)._trim = true) :
    (TFilter.endTok target search sc t st)._redact = true ∧
    (TFilter.endTok target search sc t st)._stack.length + 1 =
      st._stack.length := by
  simp only [TFilter.endTok] at ht ⊢
  have h'trim : (TFilter.add t st)._trim = false := (add_fields t st).2 hne
  have h'len : (TFilter.add t st)._stack.length = st._stack.length :=
    add_stack_length t st
  by_cases hc : target = sc ∧ (TFilter.add t st)._stack.length > 1
  · rw [if_pos hc] at ht ⊢
    match hs : (TFilter.add t st)._stack with
    | [] => rw [hs] at h'len; exact absurd h'len.symm (by
        simpa using List.length_pos.mpr hne |>.ne')
    | [f] =>
      have := hc.2
      rw [hs] at this
      simp at this
    | f :: g :: r =>
      simp only [TFilter.flush, hs] at ht ⊢
      by_cases hsr : search f.2 = false
      · rw [if_pos hsr] at ht
        rw [h'trim] at ht
        simp at ht
      · rw [if_neg hsr] at ht ⊢
        refine ⟨rfl, ?_⟩
        rw [hs] at h'len
        simpa using h'len
  · rw [if_neg hc] at ht
    rw [h'trim] at ht
    simp at ht

/-- Claim C5: the whitespace invariant of the suppression flag.  With the
flag set (which only a discarding flush does), a whitespace token is
dropped — the state is unchanged except that the flag clears — so any
later whitespace token is appended; with the flag clear, a whitespace
token is appended (and appending clears the flag); and after handling any
non-whitespace token the flag can only be set if that very step discarded
a frame (its redact flag is then set and its stack shrank by the one
discarded frame). -/
theorem c5_whitespace_invariant (target : scope_t) (search : String → Bool)
    (repl : String → String) (st : TFilter) (hne : st._stack ≠ []) :
    (∀ sp : Tok, sp.tp = .space → st._trim = true →
      TFilter.handleToken target search repl sp st = { st with _trim := false }) ∧
    (∀ sp : Tok, sp.tp = .space → st._trim = false →
      TFilter.handleToken target search repl sp st = TFilter.add sp st ∧
      (TFilter.add sp st)._trim = false) ∧
    (∀ t : Tok, t.tp ≠ .space →
      (TFilter.handleToken target search repl t st)._trim = true →
      (TFilter.handleToken target search repl t st)._redact = true ∧
      (TFilter.handleToken target search repl t st)._stack.length + 1 =
        st._stack.length) := by
  refine ⟨?_, ?_, ?_⟩
  · intro sp hsp htr
    obtain ⟨tp, raw, val⟩ := sp
    simp only at hsp
    subst hsp
    simp [TFilter.handleToken, htr]
  · intro sp hsp htr
    obtain ⟨tp, raw, val⟩ := sp
    simp only at hsp
    subst hsp
    have h2 := (add_fields ⟨.space, raw, val⟩ st).2 hne
    refine ⟨?_, h2⟩
    simp [TFilter.handleToken, htr, trim_update _ h2]
  · intro t hsp ht
    obtain ⟨tp, raw, val⟩ := t
    cases tp with
    | word =>
      simp only [TFilter.handleToken] at ht ⊢
      split_ifs at ht ⊢ with h1 h2 h3 h4
      · exact absurd ht (by rw [start_trim _ _ _ _ hne]; simp)
      · exact endTok_discard _ _ _ _ _ hne ht
      · exact absurd ht (by rw [start_trim _ _ _ _ hne]; simp)
      · exact endTok_discard _ _ _ _ _ hne ht
      · exact endTok_discard _ _ _ _ _ hne ht
    | space => exact absurd rfl hsp
    | str =>
      simp only [TFilter.handleToken] at ht ⊢
      split_ifs at ht ⊢ with h1
      · exact absurd ht (by
          rw [(add_fields ⟨.str, serializeString (repl val), repl val⟩ st).2 hne]
          simp)
      · exact absurd ht (by rw [start_trim _ _ _ _ hne]; simp)
    | other =>
      simp only [TFilter.handleToken] at ht ⊢
      exact absurd ht (by rw [start_trim _ _ _ _ hne]; simp)

/-- Witness for C5: with the suppression flag set, a concrete space token
is dropped and the flag clears. -/
theorem c5_witness :
    TFilter.handleToken .s_operator searchSecret replSecret ⟨.space, " ", " "⟩
      ⟨false, true, [("", "")]⟩ = ⟨false, false, [("", "")]⟩ :=
  (c5_whitespace_invariant .s_operator searchSecret replSecret
    ⟨false, true, [("", "")]⟩ (by simp)).1 ⟨.space, " ", " "⟩ rfl rfl

/-! ### C2: the overall verdict versus discarded frames -/

theorem erase_add (t : Tok) (r : RState) :
    eraseR (RState.add t r) = TFilter.add t (eraseR r) := by
  cases hs : r._stack <;> simp [RState.add, TFilter.add, eraseR, hs]

theorem erase_flush (search : String → Bool) (r : RState) :
    eraseR (RState.flush search r) = TFilter.flush search (eraseR r) := by
  cases hs : r._stack with
  | nil => simp [RState.flush, TFilter.flush, eraseR, hs]
  | cons f rest =>
    simp only [RState.flush, TFilter.flush, eraseR, hs]
    by_cases hsr : search f.2 = false
    · rw [if_pos hsr, if_pos hsr]
      cases rest <;> simp
    · rw [if_neg hsr, if_neg hsr]

theorem erase_start (target sc : scope_t) (t : Tok) (r : RState) :
    eraseR (RState.start target sc t r) =
      TFilter.start target sc t (eraseR r) := by
  simp only [RState.start, TFilter.start]
  by_cases hc : target = sc ∧ (nestable sc ∨ r._stack.length = 1)
  · rw [if_pos hc, if_pos (by simpa [eraseR] using hc)]
    rw [show ({ r with _stack := ("", "") :: r._stack } : RState) =
      RState.mk r._redact r._trim (("", "") :: r._stack) r.discards
        r.rootDiscards from rfl]
    rw [erase_add]
    rfl
  · rw [if_neg hc, if_neg (by simpa [eraseR] using hc)]
    exact erase_add t r

theorem erase_endTok (target : scope_t) (search : String → Bool)
    (sc : scope_t) (t : Tok) (r : RState) :
    eraseR (RState.endTok target search sc t r) =
      TFilter.endTok target search sc t (eraseR r) := by
  simp only [RState.endTok, TFilter.endTok]
  have hst : (TFilter.add t (eraseR r))._stack = (RState.add t r)._stack := by
    rw [← erase_add]; rfl
  by_cases hc : target = sc ∧ (RState.add t r)._stack.length > 1
  · rw [if_pos hc, if_pos (by rw [hst]; exact hc)]
    rw [← erase_add, erase_flush]
  · rw [if_neg hc, if_neg (by rw [hst]; exact hc)]
    exact erase_add t r

theorem erase_handleToken (target : scope_t) (search : String → Bool)
    (repl : String → String) (t : Tok) (r : RState) :
    eraseR (RState.handleToken target search repl t r) =
      TFilter.handleToken target search repl t (eraseR r) := by
  obtain ⟨tp, raw, val⟩ := t
  cases tp with
  | word =>
    simp only [RState.handleToken, TFilter.handleToken]
    split_ifs <;>
      first
        | exact erase_start _ _ _ _
        | exact erase_endTok _ _ _ _ _
  | space =>
    simp only [RState.handleToken, TFilter.handleToken]
    have key : eraseR (if r._trim = false
          then RState.add ⟨TokType.space, raw, val⟩ r else r) =
        if (eraseR r)._trim = false
          then TFilter.add ⟨TokType.space, raw, val⟩ (eraseR r) else eraseR r := by
      by_cases hc : r._trim = false
      · rw [if_pos hc, if_pos (show (eraseR r)._trim = false from hc)]
        exact erase_add _ _
      · rw [if_neg hc, if_neg (show ¬(eraseR r)._trim = false from hc)]
    have h1 := congrArg TFilter._redact key
    have h2 := congrArg TFilter._stack key
    simp only [eraseR] at h1 h2 ⊢
    rw [h1, h2]
  | str =>
    simp only [RState.handleToken, TFilter.handleToken]
    split_ifs
    · exact erase_add _ _
    · exact erase_start _ _ _ _
  | other =>
    simp only [RState.handleToken, TFilter.handleToken]
    exact erase_start _ _ _ _

theorem erase_flushN (search : String → Bool) (n : Nat) (r : RState) :
    eraseR (RState.flushN search n r) = TFilter.flushN search n (eraseR r) := by
  induction n generalizing r with
  | zero => rfl
  | succ n ih =>
    rw [RState.flushN, TFilter.flushN]
    have hst : (eraseR r)._stack = r._stack := rfl
    by_cases hc : r._stack.length > 1
    · rw [if_pos hc, if_pos (by rw [hst]; exact hc), ← erase_flush, ih]
    · rw [if_neg hc, if_neg (by rw [hst]; exact hc)]

theorem erase_runFilter (target : scope_t) (search : String → Bool)
    (repl : String → String) (toks : List Tok) :
    TFilter.runFilter target search repl toks =
      eraseR (RState.runFilter target search repl toks) := by
  rw [TFilter.runFilter, RState.runFilter, TFilter.handleEOF]
  have hrun : ∀ (ts : List Tok) (r : RState),
      TFilter.runTokens target search repl ts (eraseR r) =
        eraseR (ts.foldl (fun s t => RState.handleToken target search repl t s) r) := by
    intro ts
    induction ts with
    | nil => intro r; rfl
    | cons t ts ih =>
      intro r
      rw [runTokens_cons, ← erase_handleToken, ih]
      rfl
  have hinit : TFilter.init = eraseR RState.init := rfl
  rw [hinit, hrun, erase_flushN]
  rfl

/-- The code's redact flag is set exactly when at least one frame has been
discarded, at whatever stack depth. -/
theorem discards_sync (target : scope_t) (search : String → Bool)
    (repl : String → String) (toks : List Tok) :
    (RState.runFilter target search repl toks)._redact =
      decide (0 < (RState.runFilter target search repl toks).discards) := by
  have hadd : ∀ (t : Tok) (r : RState),
      (RState.add t r)._redact = r._redact ∧
      (RState.add t r).discards = r.discards := by
    intro t r; cases hs : r._stack <;> simp [RState.add, hs]
  have hflush : ∀ (r : RState), r._redact = decide (0 < r.discards) →
      (RState.flush search r)._redact =
        decide (0 < (RState.flush search r).discards) := by
    intro r hr
    cases hs : r._stack with
    | nil => simpa [RState.flush, hs] using hr
    | cons f rest =>
      simp only [RState.flush, hs]
      by_cases hsr : search f.2 = false
      · rw [if_pos hsr]
        cases rest <;> simpa using hr
      · rw [if_neg hsr]
        simp
  have hstart : ∀ (tg sc : scope_t) (t : Tok) (r : RState),
      (RState.start tg sc t r)._redact = r._redact ∧
      (RState.start tg sc t r).discards = r.discards := by
    intro tg sc t r
    rw [RState.start]
    split
    · exact hadd t _
    · exact hadd t r
  have hend : ∀ (tg : scope_t) (sc : scope_t) (t : Tok) (r : RState),
      r._redact = decide (0 < r.discards) →
      (RState.endTok tg search sc t r)._redact =
        decide (0 < (RState.endTok tg search sc t r).discards) := by
    intro tg sc t r hr
    rw [RState.endTok]
    split
    · exact hflush _ (by rw [(hadd t r).1, (hadd t r).2]; exact hr)
    · rw [(hadd t r).1, (hadd t r).2]; exact hr
  have htok : ∀ (t : Tok) (r : RState),
      r._redact = decide (0 < r.discards) →
      (RState.handleToken target search repl t r)._redact =
        decide (0 < (RState.handleToken target search repl t r).discards) := by
    intro t r hr
    obtain ⟨tp, raw, val⟩ := t
    cases tp with
    | word =>
      simp only [RState.handleToken]
      split_ifs <;>
        first
          | (rw [(hstart _ _ _ _).1, (hstart _ _ _ _).2]; exact hr)
          | exact hend _ _ _ _ hr
    | space =>
      simp only [RState.handleToken]
      split_ifs with hc
      · show (RState.add ⟨TokType.space, raw, val⟩ r)._redact =
          decide (0 < (RState.add ⟨TokType.space, raw, val⟩ r).discards)
        rw [(hadd _ r).1, (hadd _ r).2]; exact hr
      · exact hr
    | str =>
      simp only [RState.handleToken]
      split_ifs
      · rw [(hadd _ r).1, (hadd _ r).2]; exact hr
      · rw [(hstart _ _ _ _).1, (hstart _ _ _ _).2]; exact hr
    | other =>
      simp only [RState.handleToken]
      rw [(hstart _ _ _ _).1]
      simp only [(hstart target .s_operator ⟨TokType.other, raw, val⟩ r).2]
      exact hr
  have hfl : ∀ (n : Nat) (r : RState),
      r._redact = decide (0 < r.discards) →
      (RState.flushN search n r)._redact =
        decide (0 < (RState.flushN search n r).discards) := by
    intro n
    induction n with
    | zero => intro r hr; exact hr
    | succ n ih =>
      intro r hr
      rw [RState.flushN]
      split
      · exact ih _ (hflush r hr)
      · exact hr
  rw [RState.runFilter]
  apply hfl
  have : ∀ (ts : List Tok) (r : RState),
      r._redact = decide (0 < r.discards) →
      (ts.foldl (fun s t => RState.handleToken target search repl t s) r)._redact =
        decide (0 < (ts.foldl (fun s t =>
          RState.handleToken target search repl t s) r).discards) := by
    intro ts
    induction ts with
    | nil => intro r hr; exact hr
    | cons t ts ih => intro r hr; exact ih _ (htok t r hr)
  exact this toks RState.init rfl

/-- Claim C2, amended: the overall verdict is positive exactly when the
root frame's final probe text matches, or at least one frame was
discarded — whether or not that frame had a parent frame other than the
root to merge into. -/
theorem c2_verdict_any_discard (target : scope_t) (search : String → Bool)
    (repl : String → String) (toks : List Tok) :
    TFilter.redact search (TFilter.runFilter target search repl toks) =
      (decide (0 < (RState.runFilter target search repl toks).discards) ||
        search (((RState.runFilter target search repl toks)._stack.getLast?.getD
          ("", "")).2)) := by
  rw [erase_runFilter, TFilter.redact]
  rw [show (eraseR (RState.runFilter target search repl toks))._redact =
    (RState.runFilter target search repl toks)._redact from rfl]
  rw [discards_sync]
  rfl

/-- Claim C2 counterexample: on `q q (secret) Q (x) Q` at graphics-state
scope the discarded inner block has the outer block as its parent frame
and the root probe text `x` does not match, so the claim predicts a
negative overall verdict — but the code's verdict is positive. -/
theorem c2_counterexample_nested_discard :
    TFilter.redact searchSecret
      (TFilter.runFilter .s_graphics_state searchSecret replSecret c2toks) ≠
    specRedact .s_graphics_state searchSecret replSecret c2toks := by
  decide

/-! ### C3: monotonicity of suppression with scope width -/

theorem runFilter_sp (target : scope_t)
    (h : target = .s_stream ∨ target = .s_page) (search : String → Bool)
    (repl : String → String) (toks : List Tok) :
    TFilter.runFilter target search repl toks =
      ⟨false, false, [(rawConcat toks, valConcat toks)]⟩ := by
  have hi : TFilter.init = (⟨false, false, [("", "")]⟩ : TFilter) := rfl
  rw [TFilter.runFilter, hi, runTokens_sp target h search repl toks "" "" false]
  simp [TFilter.handleEOF, TFilter.flushN]

theorem redact_sp (target : scope_t)
    (h : target = .s_stream ∨ target = .s_page) (search : String → Bool)
    (repl : String → String) (toks : List Tok) :
    TFilter.redact search (TFilter.runFilter target search repl toks) =
      search (valConcat toks) := by
  rw [runFilter_sp target h]
  simp [TFilter.redact]

theorem streamAct_stream (search : String → Bool) (repl : String → String)
    (s : List Tok) :
    streamAct .s_stream search repl s =
      if search (valConcat s) = true then .omitStream else .keepOrig := by
  simp only [streamAct]
  rw [redact_sp .s_stream (Or.inl rfl) search repl s]

theorem streamAct_page (search : String → Bool) (repl : String → String)
    (s : List Tok) :
    streamAct .s_page search repl s =
      if search (valConcat s) = true then .dropPage else .keepOrig := by
  simp only [streamAct]
  rw [redact_sp .s_page (Or.inr rfl) search repl s]

theorem pageKept_stream_isSome (search : String → Bool)
    (repl : String → String) :
    ∀ rest : List (List Tok),
      (pageKept .s_stream search repl rest).isSome = true := by
  intro rest
  induction rest with
  | nil => rfl
  | cons s r ih =>
    rw [pageKept, streamAct_stream]
    by_cases hv : search (valConcat s) = true
    · rw [if_pos hv]
      exact ih
    · rw [if_neg hv]
      simpa using ih

/-- Claim C3, amended: monotonicity of suppression holds for the widest
pair of scopes — redacting at page scope removes at least as much content
as redacting at stream scope: every byte of page-scoped surviving content
also survives stream-scoped redaction.  (For the bracket scopes the
original claim fails, see the counterexample.) -/
theorem c3_stream_page_monotone (search : String → Bool)
    (repl : String → String) (streams : List (List Tok)) :
    List.Sublist (catStrings (pageContent .s_page search repl streams)).data
      (catStrings (pageContent .s_stream search repl streams)).data := by
  induction streams with
  | nil => simp [pageContent, pageKept]
  | cons s rest ih =>
    by_cases hv : search (valConcat s) = true
    · have h1 : streamAct .s_page search repl s = .dropPage := by
        rw [streamAct_page, if_pos hv]
      simp only [pageContent, pageKept, h1, Option.getD_none]
      exact List.nil_sublist _
    · have h1 : streamAct .s_page search repl s = .keepOrig := by
        rw [streamAct_page, if_neg hv]
      have h2 : streamAct .s_stream search repl s = .keepOrig := by
        rw [streamAct_stream, if_neg hv]
      obtain ⟨l', hl'⟩ := Option.isSome_iff_exists.mp
        (pageKept_stream_isSome search repl rest)
      cases hk : pageKept .s_page search repl rest with
      | none =>
        simp only [pageContent, pageKept, h1, hk, Option.map_none',
          Option.getD_none]
        exact List.nil_sublist _
      | some l =>
        have ih' : List.Sublist (catStrings l).data (catStrings l').data := by
          simpa only [pageContent, hk, hl', Option.getD_some] using ih
        simp only [pageContent, pageKept, h1, h2, hk, hl', Option.map_some',
          Option.getD_some, catStrings]
        rw [String.data_append, String.data_append]
        exact List.Sublist.append_left ih' _

/-- Claim C3 counterexample: on the one-stream page `(x secret) Tj` with
pattern `secret`, operator scope (narrower) removes the whole operator —
all content — while text-object scope (wider) removes nothing, because
the match lies in no `BT`/`ET` block; so the content removed at the
narrower scope is not a subset of the content removed at the wider one. -/
theorem c3_counterexample_operator_text_object :
    scope_t.idx .s_operator < scope_t.idx .s_text_object ∧
    ¬ List.Sublist
        (catStrings (pageContent .s_text_object searchSecret replSecret c3doc)).data
        (catStrings (pageContent .s_operator searchSecret replSecret c3doc)).data := by
  decide

/-! ### C6: termination of the recursive descent into form XObjects -/

theorem redactPageF_succ (target : scope_t) (search : String → Bool)
    (repl : String → String) (env : Nat → PageObj) (n : Nat) (o : PageObj) :
    redactPageF target search repl env (n + 1) o =
      if target = .s_page ∧ o.streams.any (fun s =>
          TFilter.redact search (TFilter.runFilter target search repl s)) then
        some true
      else
        formsFold (fun f => redactPageF target search repl env n (env f))
          o.forms := rfl

theorem cyc_none (target : scope_t) (search : String → Bool)
    (repl : String → String) :
    ∀ n, redactPageF target search repl cycEnv n (cycEnv 0) = none := by
  intro n
  induction n with
  | zero => rfl
  | succ n ih =>
    rw [redactPageF_succ]
    have hc : ¬(target = scope_t.s_page ∧ (cycEnv 0).streams.any (fun s =>
        TFilter.redact search (TFilter.runFilter target search repl s)) = true) := by
      simp [cycEnv]
    rw [if_neg hc]
    show formsFold _ [0] = none
    rw [formsFold]
    rw [show cycEnv 0 = cycEnv 0 from rfl] at ih
    rw [ih]

/-- Claim C6 counterexample: the recursion carries no visited-object set,
so on a document whose form XObject references itself, no amount of fuel
makes `redactPage` return — the descent diverges instead of terminating. -/
theorem c6_counterexample_cyclic_forms :
    ¬ ∃ n : Nat, (redactPageF .s_match searchSecret replSecret cycEnv n
      (cycEnv 0)).isSome = true := by
  rintro ⟨n, hn⟩
  rw [cyc_none] at hn
  simp at hn

theorem formsFold_isSome (walk : Nat → Option Bool) (fs : List Nat)
    (h : ∀ f ∈ fs, walk f ≠ none) :
    (formsFold walk fs).isSome = true := by
  induction fs with
  | nil => rfl
  | cons f fs ih =>
    rw [formsFold]
    cases hh : walk f with
    | none => exact absurd hh (h f (by simp))
    | some b =>
      cases b with
      | true => rfl
      | false => exact ih (fun g hg => h g (by simp [hg]))

theorem formsFold_congr (rec1 rec2 : Nat → Option Bool)
    (h : ∀ f, rec1 f ≠ none → rec2 f = rec1 f) :
    ∀ fs, formsFold rec1 fs ≠ none →
      formsFold rec2 fs = formsFold rec1 fs := by
  intro fs
  induction fs with
  | nil => intro _; rfl
  | cons f fs ih =>
    intro hne
    rw [formsFold] at hne ⊢
    rw [show formsFold rec1 (f :: fs) = (match rec1 f with
      | none => none
      | some true => some true
      | some false => formsFold rec1 fs) from rfl]
    cases hh : rec1 f with
    | none => rw [hh] at hne; simp at hne
    | some b =>
      rw [hh] at hne
      rw [h f (by rw [hh]; simp), hh]
      cases b with
      | true => rfl
      | false => exact ih hne

theorem redactPageF_mono (target : scope_t) (search : String → Bool)
    (repl : String → String) (env : Nat → PageObj) :
    ∀ n m o, n ≤ m →
      redactPageF target search repl env n o ≠ none →
      redactPageF target search repl env m o =
        redactPageF target search repl env n o := by
  intro n
  induction n with
  | zero =>
    intro m o _ hne
    exact absurd rfl hne
  | succ n ih =>
    intro m o hnm hne
    obtain ⟨m, rfl⟩ : ∃ m', m = m' + 1 := ⟨m - 1, by omega⟩
    have hnm' : n ≤ m := by omega
    by_cases hc : target = scope_t.s_page ∧ o.streams.any (fun s =>
        TFilter.redact search (TFilter.runFilter target search repl s)) = true
    · rw [redactPageF_succ, if_pos hc, redactPageF_succ, if_pos hc]
    · rw [redactPageF_succ, if_neg hc] at hne
      rw [redactPageF_succ, if_neg hc, redactPageF_succ, if_neg hc]
      exact formsFold_congr _ _
        (fun f hf => ih m (env f) hnm' hf) o.forms hne

/-- Claim C6, amended: the recursion has no cycle guard, so termination
holds only for well-founded reference graphs: given any rank function
that strictly decreases along every form reference of the environment,
fuel `rank + 1` returns a verdict for every object of the environment —
while cyclic references diverge (see the counterexample). -/
theorem c6_acyclic_terminates (target : scope_t) (search : String → Bool)
    (repl : String → String) (env : Nat → PageObj) (rk : Nat → Nat)
    (hdec : ∀ i, ∀ f ∈ (env i).forms, rk f < rk i) :
    ∀ (r i : Nat), rk i ≤ r →
      (redactPageF target search repl env (r + 1) (env i)).isSome = true := by
  intro r
  induction r using Nat.strong_induction_on with
  | _ r ih =>
    intro i hri
    rw [redactPageF_succ]
    by_cases hc : target = scope_t.s_page ∧ (env i).streams.any (fun s =>
        TFilter.redact search (TFilter.runFilter target search repl s)) = true
    · rw [if_pos hc]; rfl
    · rw [if_neg hc]
      apply formsFold_isSome
      intro f hf
      have hlt : rk f < rk i := hdec i f hf
      match r, hri with
      | 0, hri => exact absurd (Nat.lt_of_lt_of_le hlt hri) (by omega)
      | r' + 1, hri =>
        have h1 : (redactPageF target search repl env (rk f + 1)
            (env f)).isSome = true := by
          have : rk f < r' + 1 := by omega
          exact ih (rk f) (by omega) f (by omega)
        intro hcontra
        rw [redactPageF_mono target search repl env (rk f + 1) (r' + 1) (env f)
          (by omega) (by
            intro hx
            rw [hx] at h1
            simp at h1)] at hcontra
        rw [hcontra] at h1
        simp at h1

/-- Witness for C6 (amended): with no form references and the zero rank,
one unit of fuel already returns a verdict. -/
theorem c6_witness :
    (redactPageF .s_match searchSecret replSecret oneEnv (0 + 1)
      (oneEnv 0)).isSome = true :=
  c6_acyclic_terminates .s_match searchSecret replSecret oneEnv (fun _ => 0)
    (fun i f hf => by simp [oneEnv] at hf) 0 0 (Nat.le_refl 0)

/-! ### C7: atomic in-place replacement -/

/-- Claim C7 counterexample: the swap is `remove_file` followed by
`rename_file`, not a single atomic rename; a run failing between the two
steps leaves no file at the input path at all, contradicting "on any
processing failure the input file is left unchanged". -/
theorem c7_counterexample_remove_window :
    ¬ (fsAfter "original" "result" 2).inFile = some "original" := by
  decide

/-- Claim C7, amended: when no output path is given the whole result is
written to the sibling temporary path first, so any failure up to and
including the write leaves the input file unchanged with no partial
output in its place; a completed run leaves exactly the result at the
input path and removes the temporary; but between the remove and the
rename there is a window in which the input path holds no file, because
the swap is remove-then-rename rather than one atomic rename. -/
theorem c7_inplace_replacement (original result : String) :
    (∀ k, k ≤ 1 → (fsAfter original result k).inFile = some original) ∧
    (fsAfter original result 3).inFile = some result ∧
    (fsAfter original result 3).tmpFile = none ∧
    (fsAfter original result 2).inFile = none := by
  refine ⟨?_, rfl, rfl, rfl⟩
  intro k hk
  match k, hk with
  | 0, _ => rfl
  | 1, _ => rfl

/-- Witness for C7 (amended): a failure right after the temporary write
leaves the concrete input untouched. -/
theorem c7_witness :
    (fsAfter "in.pdf" "redacted-bytes" 1).inFile = some "in.pdf" :=
  (c7_inplace_replacement "in.pdf" "redacted-bytes").1 1 (by omega)

/-! ### C10: several scope flags are accepted, the last one wins -/

theorem parseStep_flag (s : Args) (c : Char) :
    parseStep (some s) (String.mk ['-', c]) =
      (scopeOfChar c).map (fun sc => { s with scope := sc }) := rfl

theorem parseStep_positional (s : Args) (a : String)
    (ha : a.data.head? ≠ some '-') :
    parseStep (some s) a =
      (if s.regex = none then some { s with regex := some a }
       else if s.infile = none then some { s with infile := some a }
       else if s.outfile = none then some { s with outfile := some a }
       else none) := by
  rw [parseStep, Option.some_bind]
  cases hd : a.toList with
  | nil => rfl
  | cons c0 cs =>
    have hc0 : c0 ≠ '-' := by
      intro h
      rw [show a.toList = a.data from rfl] at hd
      rw [hd, h] at ha
      simp at ha
    split
    · rename_i rest heq
      injection heq with h1 h2
      exact absurd h1 hc0
    · rfl

theorem foldl_flags (cs : List Char)
    (hcs : ∀ c ∈ cs, (scopeOfChar c).isSome = true) :
    ∀ s : Args,
      List.foldl parseStep (some s) (cs.map (fun c => String.mk ['-', c])) =
        some { s with
          scope := cs.foldl (fun sc c => (scopeOfChar c).getD sc) s.scope } := by
  induction cs with
  | nil => intro s; rfl
  | cons c cs ih =>
    intro s
    rw [List.map_cons, List.foldl_cons, parseStep_flag]
    obtain ⟨sc, hsc⟩ := Option.isSome_iff_exists.mp (hcs c (by simp))
    rw [hsc, Option.map_some']
    rw [ih (fun d hd => hcs d (by simp [hd]))]
    rw [List.foldl_cons, hsc]
    rfl

/-- Claim C10: argument parsing accepts any number of scope flags: every
`-`-argument re-assigns the scope, so with several valid flags the last
one takes effect, and parsing succeeds (no usage error) as long as a
known flag letter follows each `-` and the two positional arguments are
present. -/
theorem c10_parse_multiple_flags (cs : List Char) (c : Char) (r i : String)
    (hall : ∀ d ∈ cs ++ [c], (scopeOfChar d).isSome = true)
    (hr : r.data.head? ≠ some '-') (hi : i.data.head? ≠ some '-') :
    parseArgs ((cs ++ [c]).map (fun d => String.mk ['-', d]) ++ [r, i]) =
      some ⟨some r, some i, none, (scopeOfChar c).getD .s_match⟩ := by
  obtain ⟨sc, hsc⟩ := Option.isSome_iff_exists.mp (hall c (by simp))
  rw [parseArgs, List.foldl_append, foldl_flags (cs ++ [c]) hall]
  simp only [List.foldl_cons, List.foldl_nil, parseStep_positional _ r hr,
    parseStep_positional _ i hi]
  simp [hsc, List.foldl_append]
  simp [parseStep_positional _ i hi]

/-- Witness for C10: `-m -s regex infile` parses successfully and the
later `-s` flag wins. -/
theorem c10_witness :
    parseArgs ["-m", "-s", "re", "in.pdf"] =
      some ⟨some "re", some "in.pdf", none, .s_stream⟩ := by
  have h := c10_parse_multiple_flags ['m'] 's' "re" "in.pdf"
    (by decide) (by decide) (by decide)
  exact h

/-! ### C4: non-matching streams pass through byte-for-byte -/

theorem prefTrans {α : Type} {a b c : List α} (h1 : a <+: b) (h2 : b <+: c) :
    a <+: c := by
  obtain ⟨s, rfl⟩ := h1
  obtain ⟨t, rfl⟩ := h2
  exact ⟨s ++ t, by simp⟩

theorem infixTrans {α : Type} {a b c : List α} (h1 : a <:+: b)
    (h2 : b <:+: c) : a <:+: c := by
  obtain ⟨s, t, rfl⟩ := h1
  obtain ⟨u, v, rfl⟩ := h2
  exact ⟨u ++ s, t ++ v, by simp⟩

theorem infixOfPref {α : Type} {a b : List α} (h : a <+: b) : a <:+: b := by
  obtain ⟨t, rfl⟩ := h
  exact ⟨[], t, by simp⟩

theorem infixOfSuf {α : Type} {a b : List α} (h : a <:+ b) : a <:+: b := by
  obtain ⟨s, rfl⟩ := h
  exact ⟨s, [], by simp⟩

theorem infixCons {α : Type} {a l : List α} {c : α} (h : a <:+: l) :
    a <:+: (c :: l) := by
  obtain ⟨s, t, rfl⟩ := h
  exact ⟨c :: s, t, by simp⟩

theorem joinProbes_add (t : Tok) (st : TFilter) (hne : st._stack ≠ []) :
    (TFilter.add t st)._stack ≠ [] ∧
    (TFilter.add t st)._redact = st._redact ∧
    joinProbes (TFilter.add t st)._stack =
      joinProbes st._stack ++ (if t.tp = .str then t.val else "") := by
  cases hs : st._stack with
  | nil => exact absurd hs hne
  | cons f rest =>
    refine ⟨by simp [TFilter.add, hs], by simp [TFilter.add, hs], ?_⟩
    by_cases ht : t.tp = .str
    · simp [TFilter.add, hs, ht, joinProbes, String.append_assoc]
    · simp [TFilter.add, hs, ht, joinProbes]

theorem joinProbes_start (target sc : scope_t) (t : Tok) (st : TFilter)
    (hne : st._stack ≠ []) :
    (TFilter.start target sc t st)._stack ≠ [] ∧
    (TFilter.start target sc t st)._redact = st._redact ∧
    joinProbes (TFilter.start target sc t st)._stack =
      joinProbes st._stack ++ (if t.tp = .str then t.val else "") := by
  rw [TFilter.start]
  split
  · have h := joinProbes_add t
      { st with _stack := ("", "") :: st._stack } (by simp)
    refine ⟨h.1, h.2.1, ?_⟩
    rw [h.2.2]
    simp [joinProbes]
  · exact joinProbes_add t st hne

theorem joinProbes_flush_merge (search : String → Bool) (st : TFilter)
    (f g : String × String) (r : List (String × String))
    (hs : st._stack = f :: g :: r) (hsr : search f.2 = false) :
    (TFilter.flush search st)._stack ≠ [] ∧
    (TFilter.flush search st)._redact = st._redact ∧
    joinProbes (TFilter.flush search st)._stack = joinProbes st._stack := by
  simp only [TFilter.flush, hs]
  rw [if_pos hsr]
  refine ⟨by simp, by simp, ?_⟩
  simp [joinProbes, hs, String.append_assoc]

theorem probe_suffix_top (f : String × String) (r : List (String × String)) :
    (f.2).data <:+ (joinProbes (f :: r)).data := by
  rw [joinProbes, String.data_append]
  exact List.suffix_append _ _

theorem joinProbes_endTok (target : scope_t) (search : String → Bool)
    (sc : scope_t) (t : Tok) (st : TFilter) (hne : st._stack ≠ [])
    (hsafe : ∀ p : String,
      p.data <:+ (joinProbes st._stack ++
        (if t.tp = .str then t.val else "")).data →
      search p = false) :
    (TFilter.endTok target search sc t st)._stack ≠ [] ∧
    (TFilter.endTok target search sc t st)._redact = st._redact ∧
    joinProbes (TFilter.endTok target search sc t st)._stack =
      joinProbes st._stack ++ (if t.tp = .str then t.val else "") := by
  obtain ⟨ha1, ha2, ha3⟩ := joinProbes_add t st hne
  simp only [TFilter.endTok]
  split
  · next hc =>
    have hlen : 1 < (TFilter.add t st)._stack.length := hc.2
    match hs : (TFilter.add t st)._stack with
    | [] => rw [hs] at hlen; simp at hlen
    | [f] => rw [hs] at hlen; simp at hlen
    | f :: g :: r =>
      have hsr : search f.2 = false := by
        apply hsafe
        rw [← ha3, hs]
        exact probe_suffix_top f (g :: r)
      obtain ⟨hf1, hf2, hf3⟩ :=
        joinProbes_flush_merge search (TFilter.add t st) f g r hs hsr
      exact ⟨hf1, by rw [hf2, ha2], by rw [hf3, ha3]⟩
  · exact ⟨ha1, ha2, ha3⟩

theorem handleToken_nomatch (target : scope_t) (search : String → Bool)
    (repl : String → String) (t : Tok) (st : TFilter)
    (hne : st._stack ≠ [])
    (hrepl : target = .s_match → t.tp = .str → repl t.val = t.val)
    (hsafe : ∀ p : String,
      p.data <:+ (joinProbes st._stack ++ probeInc target repl t).data →
      search p = false) :
    (TFilter.handleToken target search repl t st)._stack ≠ [] ∧
    (TFilter.handleToken target search repl t st)._redact = st._redact ∧
    joinProbes (TFilter.handleToken target search repl t st)._stack =
      joinProbes st._stack ++ probeInc target repl t := by
  obtain ⟨tp, raw, val⟩ := t
  cases tp with
  | word =>
    simp only [TFilter.handleToken]
    split_ifs <;>
      first
        | exact joinProbes_start _ _ _ _ hne
        | exact joinProbes_endTok _ _ _ _ _ hne hsafe
  | space =>
    simp only [TFilter.handleToken]
    split_ifs with hc
    · obtain ⟨h1, h2, h3⟩ := joinProbes_add ⟨.space, raw, val⟩ st hne
      exact ⟨h1, h2, h3⟩
    · exact ⟨hne, rfl, by simp [probeInc]⟩
  | str =>
    simp only [TFilter.handleToken]
    split_ifs with hc
    · obtain ⟨h1, h2, h3⟩ :=
        joinProbes_add ⟨.str, serializeString (repl val), repl val⟩ st hne
      refine ⟨h1, h2, ?_⟩
      rw [h3]
      simp [probeInc, hc]
    · obtain ⟨h1, h2, h3⟩ :=
        joinProbes_start target .s_operator ⟨.str, raw, val⟩ st hne
      refine ⟨h1, h2, ?_⟩
      rw [h3]
      simp [probeInc, hc]
  | other =>
    simp only [TFilter.handleToken]
    obtain ⟨h1, h2, h3⟩ :=
      joinProbes_start target .s_operator ⟨.other, raw, val⟩ st hne
    exact ⟨h1, h2, by rw [h3]; simp [probeInc]⟩

theorem run_nomatch (target : scope_t) (search : String → Bool)
    (repl : String → String) (FULL : String)
    (hm : ∀ p : String, p.data <:+: FULL.data → search p = false)
    (hr : ∀ p : String, search p = false → repl p = p) :
    ∀ (ts : List Tok) (st : TFilter),
      st._stack ≠ [] → st._redact = false →
      (joinProbes st._stack ++ valConcat ts).data <+: FULL.data →
      (TFilter.runTokens target search repl ts st)._stack ≠ [] ∧
      (TFilter.runTokens target search repl ts st)._redact = false ∧
      joinProbes (TFilter.runTokens target search repl ts st)._stack =
        joinProbes st._stack ++ valConcat ts := by
  intro ts
  induction ts with
  | nil =>
    intro st hne hred _
    exact ⟨hne, hred, by simp [valConcat, runTokens_nil]⟩
  | cons t ts ih =>
    intro st hne hred hpre
    have hvalinf : t.tp = .str → (t.val).data <:+: FULL.data := by
      intro hstr
      apply infixTrans _ (infixOfPref hpre)
      exact ⟨(joinProbes st._stack).data, (valConcat ts).data,
        by simp [valConcat, hstr, String.data_append]⟩
    have hreplval : target = .s_match → t.tp = .str → repl t.val = t.val := by
      intro _ h2
      exact hr _ (hm _ (hvalinf h2))
    have hinc : probeInc target repl t = (if t.tp = .str then t.val else "") := by
      by_cases h1 : t.tp = .str
      · by_cases h2 : target = .s_match
        · simp [probeInc, h1, h2, hreplval h2 h1]
        · simp [probeInc, h1, h2]
      · simp [probeInc, h1]
    have hsafe : ∀ p : String,
        p.data <:+ (joinProbes st._stack ++ probeInc target repl t).data →
        search p = false := by
      intro p hp
      apply hm
      apply infixTrans (infixOfSuf hp)
      apply infixOfPref
      apply prefTrans _ hpre
      rw [hinc]
      refine ⟨(valConcat ts).data, ?_⟩
      simp [valConcat, String.data_append]
    obtain ⟨h1, h2, h3⟩ :=
      handleToken_nomatch target search repl t st hne hreplval hsafe
    have heq : (joinProbes st._stack ++ (if t.tp = TokType.str then t.val
        else "")) ++ valConcat ts = joinProbes st._stack ++ valConcat (t :: ts) := by
      rw [String.append_assoc]
      rfl
    have hpre2 : (joinProbes
        (TFilter.handleToken target search repl t st)._stack ++
        valConcat ts).data <+: FULL.data := by
      rw [h3, hinc, heq]
      exact hpre
    rw [runTokens_cons]
    obtain ⟨g1, g2, g3⟩ := ih (TFilter.handleToken target search repl t st) h1
      (by rw [h2, hred]) hpre2
    refine ⟨g1, g2, ?_⟩
    rw [g3, h3, hinc, heq]

theorem flushN_nomatch (search : String → Bool) :
    ∀ (n : Nat) (st : TFilter),
      st._stack ≠ [] → st._redact = false →
      (∀ p : String, p.data <:+ (joinProbes st._stack).data →
        search p = false) →
      (TFilter.flushN search n st)._stack ≠ [] ∧
      (TFilter.flushN search n st)._redact = false ∧
      joinProbes (TFilter.flushN search n st)._stack =
        joinProbes st._stack := by
  intro n
  induction n with
  | zero => intro st hne hred _; exact ⟨hne, hred, rfl⟩
  | succ n ih =>
    intro st hne hred hsafe
    rw [TFilter.flushN]
    split
    · next hlen =>
      match hs : st._stack with
      | [] => rw [hs] at hlen; simp at hlen
      | [f] => rw [hs] at hlen; simp at hlen
      | f :: g :: r =>
        have hsr : search f.2 = false := by
          apply hsafe
          rw [hs]
          exact probe_suffix_top f (g :: r)
        obtain ⟨h1, h2, h3⟩ := joinProbes_flush_merge search st f g r hs hsr
        obtain ⟨g1, g2, g3⟩ := ih (TFilter.flush search st) h1
          (by rw [h2, hred])
          (fun p hp => hsafe p (by rw [← h3]; exact hp))
        exact ⟨g1, by rw [g2], by rw [g3, h3, hs]⟩
    · exact ⟨hne, hred, rfl⟩

theorem getLast_probe (l : List (String × String)) :
    ((l.getLast?.getD ("", "")).2).data <+: (joinProbes l).data := by
  induction l with
  | nil => exact ⟨[], rfl⟩
  | cons f rest ih =>
    cases rest with
    | nil => simp [joinProbes]
    | cons g r =>
      rw [List.getLast?_cons_cons, joinProbes, String.data_append]
      exact prefTrans ih (List.prefix_append _ _)

/-- Claim C4: a content stream whose accumulated string text nowhere
matches the pattern (no substring of it matches, and the remove-matches
replacement is then the identity) is passed through byte-for-byte
unchanged at every target scope: no frame is ever discarded, the verdict
is negative, and the stream's bytes in the output document are exactly
its original bytes. -/
theorem c4_nonmatching_passthrough (target : scope_t) (search : String → Bool)
    (repl : String → String) (toks : List Tok)
    (hm : ∀ p : String, p.data <:+: (valConcat toks).data → search p = false)
    (hr : ∀ p : String, search p = false → repl p = p) :
    streamBytesAfter target search repl toks = some (rawConcat toks) := by
  have hinit : (TFilter.init)._stack ≠ [] := by simp [TFilter.init]
  have hjinit : joinProbes (TFilter.init)._stack = "" := by
    simp [TFilter.init, joinProbes]
  obtain ⟨h1, h2, h3⟩ := run_nomatch target search repl (valConcat toks) hm hr
    toks TFilter.init hinit rfl
    (by rw [hjinit]; simp)
  rw [hjinit] at h3
  obtain ⟨g1, g2, g3⟩ := flushN_nomatch search
    (TFilter.runTokens target search repl toks TFilter.init)._stack.length
    (TFilter.runTokens target search repl toks TFilter.init) h1 h2
    (fun p hp => hm p (infixOfSuf (by rw [h3] at hp; simpa using hp)))
  have hroot : TFilter.redact search
      (TFilter.runFilter target search repl toks) = false := by
    rw [TFilter.runFilter, TFilter.handleEOF, TFilter.redact]
    have hpr := getLast_probe (TFilter.flushN search
      (TFilter.runTokens target search repl toks TFilter.init)._stack.length
      (TFilter.runTokens target search repl toks TFilter.init))._stack
    rw [g3, h3] at hpr
    have hs : search ((TFilter.flushN search
        (TFilter.runTokens target search repl toks TFilter.init)._stack.length
        (TFilter.runTokens target search repl toks
          TFilter.init))._stack.getLast?.getD ("", "")).2 = false :=
      hm _ (infixOfPref (by simpa using hpr))
    rw [g2, hs]
    rfl
  simp [streamBytesAfter, streamAct, hroot]

theorem removeAllF_id (pat : List Char) :
    ∀ (n : Nat) (s : List Char), ¬(pat <:+: s) → removeAllF pat n s = s := by
  intro n
  induction n with
  | zero => intro s _; rfl
  | succ n ih =>
    intro s h
    cases s with
    | nil => rfl
    | cons c cs =>
      have hcond : ¬(pat ≠ [] ∧ pat <+: (c :: cs)) := by
        rintro ⟨_, h2⟩
        exact h (infixOfPref h2)
      rw [removeAllF, if_neg hcond]
      congr 1
      exact ih cs (fun hcs => h (infixCons hcs))

theorem replSecret_id (p : String) (h : searchSecret p = false) :
    replSecret p = p := by
  have hn : ¬("secret".data <:+: p.data) := of_decide_eq_false h
  rw [replSecret, removeAll, removeAllF_id _ _ _ hn]

/-- Witness for C4 at the concrete non-matching stream `(hi) Tj` with
pattern `secret` and operator target scope. -/
theorem c4_witness :
    streamBytesAfter .s_operator searchSecret replSecret c4tok =
      some (rawConcat c4tok) :=
  c4_nonmatching_passthrough .s_operator searchSecret replSecret c4tok
    (fun p hp => by
      cases hq : searchSecret p with
      | false => rfl
      | true =>
        exfalso
        have h1 : "secret".data <:+: p.data := of_decide_eq_true hq
        have h2 : "secret".data <:+: (valConcat c4tok).data := infixTrans h1 hp
        exact absurd h2 (by decide))
    (fun p hp => replSecret_id p hp)
